import Mathlib

/-!
Shallow embedding of `bibtex2html.py` (BibTeX parsing, crossref resolution and
record normalization).  Python strings are modelled as `List Char` internally,
with `String` wrappers at the function boundaries; Python dicts are modelled as
ordered association lists (`PyDict`) with last-write-wins insertion, matching
CPython's insertion-ordered dict semantics.
-/

set_option maxRecDepth 100000

def strOf (l : List Char) : String := ⟨l⟩

/-- Python's whitespace class for `str.strip()` and the regex class backslash-s
(ASCII part): space, tab, newline, carriage return, vertical tab, form feed. -/
def isWS (c : Char) : Bool :=
  c = ' ' || c = '\t' || c = '\n' || c = '\x0d' || c = '\x0b' || c = '\x0c'

/-- `l.dropWhile (fun c => set.contains c)`, the left half of Python `strip`. -/
def stripLeftBy (set : List Char) (l : List Char) : List Char :=
  l.dropWhile (fun c => set.contains c)

/-- Python `s.strip(set)`: drop characters of `set` from both ends. -/
def stripChars (set : List Char) (l : List Char) : List Char :=
  ((stripLeftBy set l).reverse.dropWhile (fun c => set.contains c)).reverse

/-- Python `s.strip()` (no argument): strip whitespace from both ends. -/
def stripWS (l : List Char) : List Char :=
  ((l.dropWhile isWS).reverse.dropWhile isWS).reverse

/-- Python `s.partition(c)` for a one-character separator: split at the first
occurrence.  Returns `(before, some after)` when found and `(l, none)` when
not found (Python returns `(s, "", "")` in that case). -/
def partitionC (c : Char) : List Char → List Char × Option (List Char)
  | [] => ([], none)
  | x :: xs =>
    if x = c then ([], some xs)
    else
      let r := partitionC c xs
      (x :: r.1, r.2)

/-- Python `s.rpartition(c)` for a one-character separator: split at the last
occurrence, returning `(before, after)`; when the separator does not occur,
Python returns `("", "", s)`, i.e. `([], l)` here. -/
def rpartitionC (c : Char) (l : List Char) : List Char × List Char :=
  match partitionC c l.reverse with
  | (_, none) => ([], l)
  | (x, some y) => (y.reverse, x.reverse)

/-- Python `s.split(c)` for a one-character separator: keeps empty pieces,
`"".split(c) = [""]`. -/
def splitC (sep : Char) : List Char → List (List Char)
  | [] => [[]]
  | c :: cs =>
    if c = sep then [] :: splitC sep cs
    else
      match splitC sep cs with
      | [] => [[c]]
      | h :: t => (c :: h) :: t

/-- Fuelled worker for Python `s.split(sub)` with a multi-character separator:
scan left to right, cutting at each non-overlapping occurrence. -/
def splitSubF : Nat → List Char → List Char → List (List Char)
  | 0, _, l => [l]
  | _ + 1, _, [] => [[]]
  | f + 1, pat, c :: cs =>
    if pat.isPrefixOf (c :: cs) then
      [] :: splitSubF f pat (List.drop (pat.length - 1) cs)
    else
      match splitSubF f pat cs with
      | [] => [[c]]
      | h :: t => (c :: h) :: t

/-- Python `s.split(sub)` for a (non-empty) multi-character separator. -/
def splitSub (pat l : List Char) : List (List Char) :=
  splitSubF (l.length + 1) pat l

/-- Fuelled worker for Python `s.replace(pat, rep)`: replace every
non-overlapping occurrence left to right; replaced text is not rescanned. -/
def replaceSubF : Nat → List Char → List Char → List Char → List Char
  | 0, _, _, l => l
  | _ + 1, _, _, [] => []
  | f + 1, pat, rep, c :: cs =>
    if pat.isPrefixOf (c :: cs) then
      rep ++ replaceSubF f pat rep (List.drop (pat.length - 1) cs)
    else
      c :: replaceSubF f pat rep cs

/-- Python `s.replace(pat, rep)` (for the non-empty patterns used here). -/
def replaceSub (pat rep l : List Char) : List Char :=
  replaceSubF (l.length + 1) pat rep l

/-- The regex substitution `backslash-s-plus -> single space`: collapse every
maximal run of whitespace into one space character. -/
def collapseWS : List Char → List Char
  | [] => []
  | c :: rest =>
    match rest with
    | [] => if isWS c then [' '] else [c]
    | d :: _ =>
      if isWS c then
        if isWS d then collapseWS rest else ' ' :: collapseWS rest
      else c :: collapseWS rest

/-- The regex substitution `backslash-s-plus colon -> colon`: delete every
whitespace run that immediately precedes a colon. -/
def subWsColon : List Char → List Char
  | [] => []
  | c :: rest =>
    if isWS c && ((rest.dropWhile (fun d => isWS d)).head? == some ':') then
      subWsColon rest
    else c :: subWsColon rest

def lowerL (l : List Char) : List Char := l.map Char.toLower

def upperL (l : List Char) : List Char := l.map Char.toUpper

def lowerStr (s : String) : String := strOf (lowerL s.data)

def upperStr (s : String) : String := strOf (upperL s.data)

/-- The LaTeX-escape replacement table of `cleanup_author`, in the source's
iteration order.  (Apostrophe characters are written as `'\x27'`.) -/
def replPairs : List (List Char × List Char) :=
  [ (['\\', '"', 'a'], "&auml;".data),
    (['\\', '"', 'A'], "&Auml;".data),
    (['\\', '"', 'e'], "&euml;".data),
    (['\\', '"', 'E'], "&Euml;".data),
    (['\\', '"', 'i'], "&iuml;".data),
    (['\\', '"', 'I'], "&Iuml;".data),
    (['\\', '"', 'o'], "&ouml;".data),
    (['\\', '"', 'O'], "&Ouml;".data),
    (['\\', '"', 'u'], "&uuml;".data),
    (['\\', '"', 'U'], "&Uuml;".data),
    (['\\', '\x27', 'a'], "&aacute;".data),
    (['\\', '\x27', 'A'], "&Aacute;".data),
    (['\\', '\x27', 'e'], "&eacute;".data),
    (['\\', '\x27', 'i'], "&iacute;".data),
    (['\\', '\x27', 'I'], "&Iacute;".data),
    (['\\', '\x27', 'E'], "&Eacute;".data),
    (['\\', '\x27', 'o'], "&oacute;".data),
    (['\\', '\x27', 'O'], "&Oacute;".data),
    (['\\', '\x27', 'u'], "&uacute;".data),
    (['\\', '\x27', 'U'], "&Uacute;".data),
    (['\\', '~', 'n'], "&ntilde;".data),
    (['\\', '~', 'N'], "&Ntilde;".data),
    (['\\', '~', 'a'], "&atilde;".data),
    (['\\', '~', 'A'], "&Atilde;".data),
    (['\\', '~', 'o'], "&otilde;".data),
    (['\\', '~', 'O'], "&Otilde;".data),
    (['\\', '\x27', '\\'], []),
    (['\x7b'], []),
    (['\x7d'], []),
    (" And ".data, " and ".data) ]

/-- The replacement loop at the top of `cleanup_author`. -/
def applyRepl (l : List Char) : List Char :=
  replPairs.foldl (fun acc p => replaceSub p.1 p.2 acc) l

/-- One iteration of the author loop: `author.partition(",")` and re-emission
as `after.strip() + " " + before.strip()`. -/
def reorderName (a : List Char) : List Char :=
  let pr := partitionC ',' a
  stripWS (pr.2.getD []) ++ ' ' :: stripWS pr.1

/-- The accumulation loop of `cleanup_author` over the split author list. -/
def joinNames (authors : List (List Char)) : List Char :=
  authors.foldl (fun s a => (if s.isEmpty then s else s ++ ", ".data) ++ reorderName a) []

/-- `cleanup_author`, on character lists. -/
def cleanupAuthorL (l : List Char) : List Char :=
  let s1 := stripWS (applyRepl l)
  let authors := splitSub ("and".data) s1
  let joined := joinNames authors
  if authors.length > 1 then
    let pr := rpartitionC ',' joined
    collapseWS (pr.1 ++ ", and ".data ++ pr.2)
  else joined

/-- `cleanup_author` from the source: replace the escape table, strip, split on
the substring `and`, reorder each `Last, First` name, rejoin. -/
def cleanup_author (s : String) : String := strOf (cleanupAuthorL s.data)

/-- Character whitelist of `cleanup_title`: letters, digits, whitespace,
period, parentheses, colon, hyphen; everything else becomes a space. -/
def titleKeep (c : Char) : Bool :=
  c.isAlpha || c.isDigit || isWS c || c = '.' || c = '(' || c = ')' || c = ':' || c = '-'

def whitelistTitle (l : List Char) : List Char :=
  l.map (fun c => if titleKeep c then c else ' ')

/-- `cleanup_title` from the source: whitelist substitution, whitespace
collapse, then `whitespace-colon -> colon`. -/
def cleanup_title (s : String) : String :=
  strOf (subWsColon (collapseWS (whitelistTitle s.data)))

/-- `cleanup_page` from the source (unused by the claims, kept for fidelity). -/
def cleanup_page (s : String) : String :=
  strOf (replaceSub ("--".data) ("-".data) s.data)

/-! ### Python dicts as ordered association lists -/

/-- A CPython dict (insertion-ordered, string keys), modelled as an
association list whose key list is duplicate-free when built by `insert`. -/
abbrev PyDict (α : Type) := List (String × α)

/-- Python `d[k]` / `k in d` lookup. -/
def PyDict.find {α : Type} : PyDict α → String → Option α
  | [], _ => none
  | (k', v) :: rest, k => if k' = k then some v else PyDict.find rest k

/-- Python `d[k] = v`: overwrite in place when the key exists (keeping its
position), otherwise append at the end. -/
def PyDict.insert {α : Type} (d : PyDict α) (k : String) (v : α) : PyDict α :=
  if d.any (fun p => p.1 = k) then
    d.map (fun p => if p.1 = k then (k, v) else p)
  else d ++ [(k, v)]

/-- Python `del d[k]` (on a dict with duplicate-free keys). -/
def PyDict.erase {α : Type} (d : PyDict α) (k : String) : PyDict α :=
  d.filter (fun p => p.1 ≠ k)

/-- Python `d | e`: start from `d`, then write every entry of `e` in order. -/
def PyDict.union {α : Type} (d e : PyDict α) : PyDict α :=
  e.foldl (fun acc p => acc.insert p.1 p.2) d

/-- The keys of the association list are pairwise distinct (true of every
list built by `PyDict.insert`, i.e. of every Python dict). -/
def PyDict.keysNodup {α : Type} (d : PyDict α) : Prop :=
  (d.map Prod.fst).Nodup

instance {α : Type} (d : PyDict α) : Decidable d.keysNodup := by
  unfold PyDict.keysNodup; infer_instance

abbrev Dict := PyDict String

/-! ### `extract_bibitem`: entry splitting and field parsing -/

/-- Splitting the (stripped, comment-filtered, rejoined) file text at `@` and
dropping empty fragments: the entry fragments in file order. -/
def fileEntries (datalist : List String) : List (List Char) :=
  let stripped := datalist.map (fun s => stripChars (" \n\t".data) s.data)
  let kept := stripped.filter (fun s => decide (s.take 2 ≠ ['%', '%']))
  let data := kept.foldl (fun acc s => acc ++ s ++ ['\n']) []
  (splitC '@' data).filter (fun s => decide (s ≠ []))

/-- Per-fragment work of `extract_bibitem`: partition at the first `{` into
the type, at the first `,` into the id, drop the text after the last `}`,
synthesize the `type =` and `id =` lines, keep non-empty body lines, and strip
each line of spaces, commas, tabs and newlines. -/
def mkKeylist (s : List Char) : List (List Char) :=
  let p1 := partitionC '{' s
  let p2 := partitionC ',' (p1.2.getD [])
  let body := (rpartitionC '}' (p2.2.getD [])).1
  let keylist := ("type = ".data ++ lowerL p1.1) ::
    ("id = ".data ++ p2.1) ::
    (splitC '\n' body).filter (fun k => decide (k ≠ []))
  keylist.map (stripChars (" ,\t\n".data))

/-- Turning one key list into a dict: partition each line at the first `=`,
strip and lower-case the key, strip the value, last write wins. -/
def mkDict (keylist : List (List Char)) : Dict :=
  keylist.foldl
    (fun m t =>
      let pr := partitionC '=' t
      PyDict.insert m (strOf (lowerL (stripChars (" ,\n\t\x7b\x7d".data) pr.1)))
        (strOf (stripChars (" ,\n\t\x7b\x7d\"".data) (pr.2.getD []))))
    []

/-- The dict produced for a single raw fragment. -/
def entryDict (s : List Char) : Dict := mkDict (mkKeylist s)

/-- `extract_bibitem` from the source: build the key lists in file order,
reverse the list of key lists, then build the dicts. -/
def extract_bibitem (datalist : List String) : List Dict :=
  (((fileEntries datalist).map mkKeylist).reverse).map mkDict

/-! ### `extract_crossref`: the macro table and the crossref table -/

/-- The `@string` macro-table loop of `extract_crossref`: for each dict of
type `string`, re-partition its `id` value at `=` into a (lower-cased,
stripped) macro name and a (stripped) replacement.  A dict without an `id`
key would raise a `KeyError`, modelled by `none`. -/
def strdictOf : List Dict → Dict → Option Dict
  | [], acc => some acc
  | d :: rest, acc =>
    match d.find ("type") with
    | none => strdictOf rest acc
    | some ty =>
      if ty = "string" then
        match d.find ("id") with
        | none => none
        | some s =>
          let pr := partitionC '=' s.data
          strdictOf rest
            (acc.insert (strOf (lowerL (stripChars (" ,\n\t\x7b\x7d".data) pr.1)))
              (strOf (stripChars (" ,\n\t\x7b\x7d\"".data) (pr.2.getD []))))
      else strdictOf rest acc

/-- The whitelist/collapse tail of `canonicalize_booktitle`: keep letters,
digits, whitespace, period, parentheses and ampersand, then collapse
whitespace runs. -/
def booktitleKeep (c : Char) : Bool :=
  c.isAlpha || c.isDigit || isWS c || c = '.' || c = '(' || c = ')' || c = '&'

def booktitleFilter (t : String) : String :=
  strOf (collapseWS (t.data.map (fun c => if booktitleKeep c then c else ' ')))

/-- `canonicalize_booktitle` from the source: scan the macro table in order
and replace the title with the first replacement whose upper-cased macro name
equals the title exactly; then apply the whitelist and collapse whitespace. -/
def canonicalize_booktitle (title : String) (strdict : Dict) : String :=
  let title' :=
    match strdict.find? (fun p => upperStr p.1 == title) with
    | some p => p.2
    | none => title
  booktitleFilter title'

/-- The record stored in the crossref table for a `proceedings` dict `d`:
`booktitle` is the canonicalized title, and the `title`, `type` and `id`
entries are deleted. -/
def procEntry (sd : Dict) (d : Dict) : Dict :=
  ((((d.insert ("booktitle")
      (canonicalize_booktitle ((d.find ("title")).getD "") sd))).erase
    ("title")).erase ("type")).erase ("id")

/-- The crossref-table loop of `extract_crossref`: index the `procEntry` of
every `proceedings` dict by its id, later writes overwriting earlier ones.
Missing `id` or `title` on a `proceedings` dict would raise a `KeyError`,
modelled by `none`. -/
def buildCrossref (sd : Dict) : List Dict → PyDict Dict → Option (PyDict Dict)
  | [], acc => some acc
  | d :: rest, acc =>
    match d.find ("type") with
    | none => buildCrossref sd rest acc
    | some ty =>
      if ty = "proceedings" then
        match d.find ("id"), d.find ("title") with
        | some key, some _ => buildCrossref sd rest (acc.insert key (procEntry sd d))
        | _, _ => none
      else buildCrossref sd rest acc

/-- `extract_crossref` from the source (file reading elided: the function is
given the file's lines): extract the dicts, build the macro table, then build
the crossref table. -/
def extract_crossref (datalist : List String) : Option (PyDict Dict) :=
  let dictlist := extract_bibitem datalist
  match strdictOf dictlist [] with
  | none => none
  | some sd => buildCrossref sd dictlist []

/-! ### `translate_bibtex_to_dictionary`: the record normalizer -/

/-- The crossref-merge step of the normalizer: when the dict has a `crossref`
field naming a crossref-table key, overlay the table's record on top. -/
def mergeStep (cr : PyDict Dict) (d : Dict) : Dict :=
  match d.find ("crossref") with
  | none => d
  | some k =>
    match cr.find k with
    | none => d
    | some t => d.union t

/-- Per-dict preparation of the normalizer: crossref merge, `class` tag,
`journal`-to-`booktitle` aliasing. -/
def prepStep (cr : PyDict Dict) (cls : String) (d : Dict) : Dict :=
  let d1 := mergeStep cr d
  let d2 := d1.insert ("class") cls
  match d2.find ("journal"), d2.find ("booktitle") with
  | some j, none => d2.insert ("booktitle") j
  | _, _ => d2

/-- The author/title cleanup step applied to each surviving dict. -/
def cleanStep (d : Dict) : Dict :=
  let d1 := d.insert ("author") (cleanup_author ((d.find ("author")).getD ""))
  d1.insert ("title") (cleanup_title ((d1.find ("title")).getD ""))

/-- The body of `translate_bibtex_to_dictionary` after `extract_bibitem`:
merge/tag/alias each dict, keep only `inproceedings`/`article` entries, keep
only entries that have an author and a title, keep only entries whose author
and title are non-empty, then clean up authors and titles. -/
def normalizeDicts (dl : List Dict) (cls : String) (cr : PyDict Dict) : List Dict :=
  let dl1 := dl.map (prepStep cr cls)
  let dl2 := dl1.filter (fun d =>
    decide (d.find ("type") = some "inproceedings" ∨ d.find ("type") = some "article"))
  let dl3 := dl2.filter (fun d => (d.find ("author")).isSome && (d.find ("title")).isSome)
  let dl4 := dl3.filter (fun d =>
    decide (d.find ("author") ≠ some "" ∧ d.find ("title") ≠ some ""))
  dl4.map cleanStep

/-- `translate_bibtex_to_dictionary` from the source (file reading elided:
the function is given the file's lines and the class tag derived from the
file's base name). -/
def translate_bibtex_to_dictionary (datalist : List String) (cls : String)
    (cr : PyDict Dict) : List Dict :=
  normalizeDicts (extract_bibitem datalist) cls cr

/-- The same normalization pipeline applied to the entries in file order
(without the splitter's reversal); used to state how the output order relates
to file order. -/
def normalizeFileOrder (datalist : List String) (cls : String)
    (cr : PyDict Dict) : List Dict :=
  normalizeDicts ((fileEntries datalist).map entryDict) cls cr

/-! ### `get_result`: grouping by year -/

/-- Python `int(s)` on a string: strip whitespace, then parse an optionally
signed decimal integer. -/
def toIntPy (s : String) : Option Int := (strOf (stripWS s.data)).toInt?

/-- The year-collection comprehension of `get_result`:
`[int(d["year"]) for d in dictlist if "year" in d]`; an unparsable year
raises `ValueError`, modelled by `none`. -/
def collectYears : List Dict → Option (List Int)
  | [] => some []
  | d :: rest =>
    match d.find ("year") with
    | none => collectYears rest
    | some y =>
      match toIntPy y with
      | none => none
      | some n => (collectYears rest).map (fun l => n :: l)

/-- Stable ascending insertion used to model Python's `list.sort()` (on a
list of integers the sorted result is unique, so any correct sort agrees). -/
def insertAsc (x : Int) : List Int → List Int
  | [] => [x]
  | y :: ys => if x ≤ y then x :: y :: ys else y :: insertAsc x ys

def sortInts (l : List Int) : List Int := l.foldr insertAsc []

/-- Does `d` belong to the `printing` list for class `cls` and year `y`? -/
def printsFor (cls : String) (y : Int) (d : Dict) : Bool :=
  (cls == "all" || d.find ("class") == some cls) &&
    (match d.find ("year") with
     | none => false
     | some ys =>
       match toIntPy ys with
       | none => false
       | some n => n == y)

/-- The body of the year loop of `get_result`, threading the accumulated
result string and the `print_header` flag. -/
def yearStep (dictlist : List Dict) (cls : String) (format_entry : Dict → String)
    (print_year print_table : Bool) (years : List Int) (st : String × Bool)
    (y : Int) : String × Bool :=
  if y ∈ years then
    let st1 := if print_year then (st.1 ++ "# " ++ toString y ++ "\\\n", true) else st
    let st2 :=
      if st1.2 && print_table then
        (st1.1 ++ "|<-->|<-->|\n" ++ "|-|----------------------------|\n", false)
      else st1
    let printing := dictlist.filter (printsFor cls y)
    (printing.foldl (fun r d => r ++ format_entry d) st2.1, st2.2)
  else st

/-- `get_result` from the source, with the two global flags as parameters.
Indexing `years[0]` on an empty year list raises `IndexError`, modelled by
`none`; everything else returns `some` of the accumulated string. -/
def get_result (dictlist : List Dict) (cls : String) (format_entry : Dict → String)
    (print_year print_table : Bool) : Option String :=
  match collectYears dictlist with
  | none => none
  | some ys =>
    match sortInts ys with
    | [] => none
    | o :: rest =>
      let older := o
      let newer := (o :: rest).getLast (List.cons_ne_nil o rest)
      let yList := ((List.range (newer + 1 - older).toNat).map
        (fun i => older + (i : Int))).reverse
      some ((yList.foldl
        (yearStep dictlist cls format_entry print_year print_table (o :: rest))
        ("", true)).1)

/-! ### Concrete inputs used by the claims -/

/-- The spec's example entry, laid out one field per line as in a BibTeX
file (the field parser splits the entry body on newlines). -/
def c1Lines : List String :=
  ["@INPROCEEDINGS\x7bSmith20,",
   "author = \x7bSmith, John and Doe, Jane\x7d,",
   "title = \x7bA \x7bStudy\x7d of X.\x7d,",
   "year = \x7b2020\x7d,",
   "booktitle = \x7bProc. Y\x7d\x7d"]

/-- A file with two `@proceedings` entries sharing the id `P1`: the first
has title `First`, the second `Second`. -/
def dupLines : List String :=
  ["@proceedings\x7bP1,", "title = \x7bFirst\x7d\x7d",
   "@proceedings\x7bP1,", "title = \x7bSecond\x7d\x7d"]

/-- A file with two `@inproceedings` entries, id `A1` before id `B1`. -/
def twoLines : List String :=
  ["@inproceedings\x7bA1,", "author = \x7bSmith, John\x7d,", "title = \x7bAlpha\x7d,",
   "year = \x7b2020\x7d,", "booktitle = \x7bX\x7d\x7d",
   "@inproceedings\x7bB1,", "author = \x7bDoe, Jane\x7d,", "title = \x7bBeta\x7d,",
   "year = \x7b2021\x7d,", "booktitle = \x7bY\x7d\x7d"]

/-! ### C1 -/

/-- Claim C1, counterexample: on the example entry the pipeline does not
produce a record whose fields are only the five listed ones — every output
record additionally contains the synthesized `id` and `class` fields. -/
theorem c1_counterexample :
    translate_bibtex_to_dictionary c1Lines ("refs") [] ≠
      [[("author", "John Smith, and Jane Doe"), ("title", "A Study of X."),
        ("year", "2020"), ("booktitle", "Proc. Y"), ("type", "inproceedings")]] ∧
    ∀ d ∈ translate_bibtex_to_dictionary c1Lines ("refs") [],
      d.find ("id") = some ("Smith20") ∧ d.find ("class") = some ("refs") := by
  decide

/-- Claim C1 (amended): on the example entry the pipeline produces exactly one
record; its `author`, `title`, `year`, `booktitle` and `type` fields are
exactly the claimed values (two authors joined with a comma before `and`),
and the record additionally carries the synthesized `id` and `class` fields. -/
theorem c1_amended_record :
    translate_bibtex_to_dictionary c1Lines ("refs") [] =
      [[("type", "inproceedings"), ("id", "Smith20"),
        ("author", "John Smith, and Jane Doe"), ("title", "A Study of X."),
        ("year", "2020"), ("booktitle", "Proc. Y"), ("class", "refs")]] := by
  decide

/-! ### C10 -/

/-- Claim C10: `cleanup_author` splits at every occurrence of the substring
`and`, so the single-author input `Sandra Smith` is split into two pieces and
rendered as a mangled two-author string. -/
theorem c10_substring_split :
    splitSub ("and".data) (stripWS (applyRepl ("Sandra Smith".data))) =
      ["S".data, "ra Smith".data] ∧
    cleanup_author ("Sandra Smith") = " S, and ra Smith" := by
  decide

/-! ### C3: counterexample -/

/-- Claim C3, counterexample: for the two-author field
`Smith, John and Doe, Jane`, `cleanup_author` joins the reordered names with
a comma before `and` — the result is not the claimed
`John Smith and Jane Doe`. -/
theorem c3_counterexample :
    cleanup_author ("Smith, John and Doe, Jane") = "John Smith, and Jane Doe" ∧
    ("John Smith, and Jane Doe" : String) ≠ "John Smith and Jane Doe" := by
  decide

/-! ### C4: counterexample -/

/-- Claim C4, counterexample: the title `Acm` equals the macro name `acm`
ignoring letter case, yet `canonicalize_booktitle` leaves it unsubstituted —
the match only fires on the all-uppercase spelling of the stored name. -/
theorem c4_counterexample :
    lowerStr ("Acm") = lowerStr ("acm") ∧
    canonicalize_booktitle ("Acm") [("acm", "ZZZ")] = "Acm" ∧
    canonicalize_booktitle ("Acm") [("acm", "ZZZ")] ≠ booktitleFilter ("ZZZ") := by
  decide

/-! ### C5: counterexample -/

/-- Claim C5, counterexample: in a file whose two `@proceedings P1` entries
carry titles `First` then `Second` in that order, the crossref table maps
`P1` to the record of the occurrence appearing EARLIER in the file, not the
later one. -/
theorem c5_counterexample :
    (fileEntries dupLines).map (fun e => (entryDict e).find ("title")) =
      [some ("First"), some ("Second")] ∧
    extract_crossref dupLines = some [("P1", [("booktitle", "First")])] ∧
    ([("booktitle", "First")] : Dict) ≠ [("booktitle", "Second")] := by
  decide

/-! ### C6: counterexample -/

/-- Claim C6, counterexample: on a file containing the surviving entries `A1`
then `B1` in that order, the normalizer returns the records in reverse file
order (`B1` before `A1`); the splitter's internal reversal is not
compensated. -/
theorem c6_counterexample :
    (fileEntries twoLines).map (fun e => (entryDict e).find ("id")) =
      [some ("A1"), some ("B1")] ∧
    (translate_bibtex_to_dictionary twoLines ("x") []).map (fun d => d.find ("id")) =
      [some ("B1"), some ("A1")] ∧
    (some ("A1") : Option String) ≠ some ("B1") := by
  decide

/-! ### C7 -/

/-- Claim C7: when no record has a `year` field (in particular for the empty
list), `get_result` hits `years[0]` on an empty sorted list and fails with an
index error instead of returning a result string. -/
theorem c7_no_year_fails (dictlist : List Dict) (cls : String)
    (fmt : Dict → String) (py pt : Bool)
    (h : ∀ d ∈ dictlist, d.find ("year") = none) :
    get_result dictlist cls fmt py pt = none := by
  have hy : collectYears dictlist = some [] := by
    induction dictlist with
    | nil => rfl
    | cons d rest ih =>
      have hd := h d (by simp)
      have hrest : collectYears rest = some [] :=
        ih (fun d' hd' => h d' (by simp [hd']))
      simp [collectYears, hd, hrest]
  simp [get_result, hy, sortInts]

/-- Claim C7, witness: the hypotheses hold for the empty record list, on
which `get_result` indeed returns no result string. -/
theorem c7_witness :
    (∀ d ∈ ([] : List Dict), d.find ("year") = none) ∧
    get_result [] ("all") (fun _ => "") false false = none :=
  ⟨by simp, c7_no_year_fails [] ("all") (fun _ => "") false false (by simp)⟩

/-! ### C4: amended theorem -/

/-- Claim C4 (amended): the macro match of `canonicalize_booktitle` is
case-sensitive — the title is replaced by the first macro whose stored name,
converted to upper case, equals the title exactly; spellings that agree only
ignoring case (as in the counterexample) are not substituted. -/
theorem c4_amended_uppercase_match (s1 s2 : Dict) (k v title : String)
    (h1 : ∀ p ∈ s1, upperStr p.1 ≠ title) (h2 : upperStr k = title) :
    canonicalize_booktitle title (s1 ++ (k, v) :: s2) = booktitleFilter v := by
  have hnone : s1.find? (fun p => upperStr p.1 == title) = none := by
    rw [List.find?_eq_none]
    intro p hp
    simpa using h1 p hp
  have hfind : (s1 ++ (k, v) :: s2).find? (fun p => upperStr p.1 == title) =
      some (k, v) := by
    rw [List.find?_append, hnone]
    simp [h2]
  simp [canonicalize_booktitle, hfind]

/-- Claim C4, witness: with the single stored macro `acm` and the
all-uppercase title `ACM`, the substitution fires. -/
theorem c4_witness :
    (∀ p ∈ ([] : Dict), upperStr p.1 ≠ "ACM") ∧ upperStr ("acm") = "ACM" ∧
    canonicalize_booktitle ("ACM") ([] ++ ("acm", "The ACM Conf") :: []) =
      booktitleFilter ("The ACM Conf") :=
  ⟨by simp, by decide,
    c4_amended_uppercase_match [] [] ("acm") ("The ACM Conf") ("ACM")
      (by simp) (by decide)⟩

/-! ### Lemmas about the dict model -/

theorem pd_any_false_iff {α : Type} (d : PyDict α) (k : String) :
    d.any (fun p => p.1 = k) = false ↔ k ∉ d.map Prod.fst := by
  induction d with
  | nil => simp
  | cons p rest ih =>
    simp only [List.any_cons, Bool.or_eq_false_iff, decide_eq_false_iff_not,
      List.map_cons, List.mem_cons, not_or, ih]
    constructor
    · rintro ⟨h1, h2⟩
      exact ⟨fun h => h1 h.symm, h2⟩
    · rintro ⟨h1, h2⟩
      exact ⟨fun h => h1 h.symm, h2⟩

theorem pd_find_of_any_false {α : Type} {d : PyDict α} {k : String}
    (h : d.any (fun p => p.1 = k) = false) : d.find k = none := by
  induction d with
  | nil => rfl
  | cons p rest ih =>
    simp only [List.any_cons, Bool.or_eq_false_iff, decide_eq_false_iff_not] at h
    obtain ⟨p1, p2⟩ := p
    simp only [PyDict.find, if_neg h.1]
    exact ih h.2

theorem pd_find_of_not_mem_keys {α : Type} {d : PyDict α} {k : String}
    (h : k ∉ d.map Prod.fst) : d.find k = none :=
  pd_find_of_any_false ((pd_any_false_iff d k).mpr h)

theorem pd_find_append {α : Type} (d e : PyDict α) (k : String) :
    PyDict.find (d ++ e) k =
      match d.find k with
      | some v => some v
      | none => e.find k := by
  induction d with
  | nil => simp [PyDict.find]
  | cons p rest ih =>
    obtain ⟨p1, p2⟩ := p
    by_cases h : p1 = k
    · simp [PyDict.find, h]
    · simp only [List.cons_append, PyDict.find, if_neg h]
      exact ih

theorem pd_find_map_hit {α : Type} {d : PyDict α} {k : String} (v : α)
    (h : d.any (fun p => p.1 = k) = true) :
    PyDict.find (d.map (fun p => if p.1 = k then (k, v) else p)) k = some v := by
  induction d with
  | nil => simp at h
  | cons p rest ih =>
    obtain ⟨p1, p2⟩ := p
    simp only [List.map_cons]
    by_cases hk : p1 = k
    · have he : (if (p1, p2).1 = k then (k, v) else (p1, p2)) = (k, v) := if_pos hk
      rw [he]
      simp [PyDict.find]
    · have he : (if (p1, p2).1 = k then (k, v) else (p1, p2)) = (p1, p2) := if_neg hk
      rw [he]
      simp only [List.any_cons, decide_eq_true_eq, Bool.or_eq_true] at h
      rcases h with h | h
      · exact absurd h hk
      · simp only [PyDict.find, if_neg hk]
        exact ih h

theorem pd_find_insert_self {α : Type} (d : PyDict α) (k : String) (v : α) :
    PyDict.find (d.insert k v) k = some v := by
  unfold PyDict.insert
  by_cases h : d.any (fun p => p.1 = k) = true
  · rw [if_pos h]
    exact pd_find_map_hit v h
  · rw [if_neg h, pd_find_append, pd_find_of_any_false (Bool.eq_false_iff.mpr h)]
    simp [PyDict.find]

theorem pd_find_map_miss {α : Type} (d : PyDict α) (k k' : String) (v : α)
    (h : k' ≠ k) :
    PyDict.find (d.map (fun p => if p.1 = k then (k, v) else p)) k' = d.find k' := by
  induction d with
  | nil => rfl
  | cons p rest ih =>
    obtain ⟨p1, p2⟩ := p
    simp only [List.map_cons]
    by_cases hk : p1 = k
    · have he : (if (p1, p2).1 = k then (k, v) else (p1, p2)) = (k, v) := if_pos hk
      rw [he]
      have hne : k ≠ k' := fun hh => h hh.symm
      have hne2 : p1 ≠ k' := hk ▸ hne
      simp only [PyDict.find, if_neg hne, if_neg hne2]
      exact ih
    · have he : (if (p1, p2).1 = k then (k, v) else (p1, p2)) = (p1, p2) := if_neg hk
      rw [he]
      simp only [PyDict.find]
      by_cases hp : p1 = k'
      · simp [hp]
      · rw [if_neg hp, if_neg hp]
        exact ih

theorem pd_find_insert_ne {α : Type} (d : PyDict α) (k k' : String) (v : α)
    (h : k' ≠ k) : PyDict.find (d.insert k v) k' = d.find k' := by
  unfold PyDict.insert
  by_cases hc : d.any (fun p => p.1 = k) = true
  · rw [if_pos hc]
    exact pd_find_map_miss d k k' v h
  · rw [if_neg hc, pd_find_append]
    have h1 : PyDict.find [(k, v)] k' = none := by
      have : k ≠ k' := fun hh => h hh.symm
      simp [PyDict.find, this]
    rw [h1]
    cases d.find k' <;> rfl

theorem pd_find_some_any {α : Type} {d : PyDict α} {k : String} {v : α}
    (h : d.find k = some v) : d.any (fun p => p.1 = k) = true := by
  induction d with
  | nil => simp [PyDict.find] at h
  | cons p rest ih =>
    obtain ⟨p1, p2⟩ := p
    simp only [PyDict.find] at h
    by_cases hk : p1 = k
    · simp [hk]
    · rw [if_neg hk] at h
      simp only [List.any_cons, Bool.or_eq_true, decide_eq_true_eq]
      exact Or.inr (ih h)

theorem pd_map_id_of_no_key {α : Type} (d : PyDict α) (k : String) (v : α)
    (h : k ∉ d.map Prod.fst) :
    d.map (fun p => if p.1 = k then (k, v) else p) = d := by
  induction d with
  | nil => rfl
  | cons p rest ih =>
    obtain ⟨p1, p2⟩ := p
    simp only [List.map_cons, List.mem_cons, not_or] at h ⊢
    have hk : p1 ≠ k := fun hh => h.1 hh.symm
    have he : (if (p1, p2).1 = k then (k, v) else (p1, p2)) = (p1, p2) := if_neg hk
    rw [he, ih h.2]

theorem pd_insert_of_find_eq {α : Type} {d : PyDict α} {k : String} {v : α}
    (hnd : d.keysNodup) (h : d.find k = some v) : d.insert k v = d := by
  unfold PyDict.insert
  rw [if_pos (pd_find_some_any h)]
  induction d with
  | nil => rfl
  | cons p rest ih =>
    obtain ⟨p1, p2⟩ := p
    simp only [PyDict.find] at h
    simp only [PyDict.keysNodup, List.map_cons, List.nodup_cons] at hnd
    simp only [List.map_cons]
    by_cases hk : p1 = k
    · rw [if_pos hk] at h
      have hv : p2 = v := Option.some.inj h
      have he : (if (p1, p2).1 = k then (k, v) else (p1, p2)) = (p1, p2) := by
        rw [if_pos hk, hk, hv]
      rw [he]
      have hkm : k ∉ rest.map Prod.fst := hk ▸ hnd.1
      rw [pd_map_id_of_no_key rest k v hkm]
    · rw [if_neg hk] at h
      have he : (if (p1, p2).1 = k then (k, v) else (p1, p2)) = (p1, p2) := if_neg hk
      rw [he, ih hnd.2 h]

theorem pd_find_union_right_none {α : Type} {e : PyDict α} {k : String}
    (d : PyDict α) (h : e.find k = none) :
    PyDict.find (d.union e) k = d.find k := by
  induction e generalizing d with
  | nil => rfl
  | cons p e' ih =>
    obtain ⟨p1, p2⟩ := p
    simp only [PyDict.find] at h
    by_cases hk : p1 = k
    · rw [if_pos hk] at h
      exact absurd h (by simp)
    · rw [if_neg hk] at h
      show PyDict.find (PyDict.union (d.insert p1 p2) e') k = d.find k
      rw [ih (d.insert p1 p2) h]
      exact pd_find_insert_ne d p1 k p2 (fun hh => hk hh.symm)

theorem pd_find_union_mem {α : Type} {e : PyDict α} {k : String} {v : α}
    (d : PyDict α) (he : e.keysNodup) (h : (k, v) ∈ e) :
    PyDict.find (d.union e) k = some v := by
  induction e generalizing d with
  | nil => simp at h
  | cons p e' ih =>
    obtain ⟨p1, p2⟩ := p
    simp only [PyDict.keysNodup, List.map_cons, List.nodup_cons] at he
    rcases List.mem_cons.mp h with heq | hmem
    · have hkv : k = p1 ∧ v = p2 := by simpa using heq
      obtain ⟨hk, hv⟩ := hkv
      subst hk
      subst hv
      show PyDict.find (PyDict.union (d.insert k v) e') k = some v
      have hnone : PyDict.find e' k = none := pd_find_of_not_mem_keys he.1
      rw [pd_find_union_right_none _ hnone]
      exact pd_find_insert_self d k v
    · show PyDict.find (PyDict.union (d.insert p1 p2) e') k = some v
      exact ih (d.insert p1 p2) he.2 hmem

theorem pd_keys_map_replace {α : Type} (d : PyDict α) (k : String) (v : α) :
    (d.map (fun p => if p.1 = k then (k, v) else p)).map Prod.fst =
      d.map Prod.fst := by
  induction d with
  | nil => rfl
  | cons p rest ih =>
    obtain ⟨p1, p2⟩ := p
    simp only [List.map_cons]
    by_cases hk : p1 = k
    · have he : (if (p1, p2).1 = k then (k, v) else (p1, p2)) = (k, v) := if_pos hk
      rw [he, ih]
      simp [hk]
    · have he : (if (p1, p2).1 = k then (k, v) else (p1, p2)) = (p1, p2) := if_neg hk
      rw [he, ih]

theorem pd_keysNodup_insert {α : Type} {d : PyDict α} (k : String) (v : α)
    (h : d.keysNodup) : (d.insert k v).keysNodup := by
  unfold PyDict.insert
  by_cases hc : d.any (fun p => p.1 = k) = true
  · rw [if_pos hc]
    unfold PyDict.keysNodup
    rw [pd_keys_map_replace]
    exact h
  · rw [if_neg hc]
    unfold PyDict.keysNodup
    have hk : k ∉ d.map Prod.fst :=
      (pd_any_false_iff d k).mp (Bool.eq_false_iff.mpr hc)
    simp only [List.map_append, List.map_cons, List.map_nil]
    rw [List.nodup_append]
    exact ⟨h, List.nodup_singleton k, by simpa using fun hmem => hk hmem⟩

theorem pd_keysNodup_union {α : Type} {d : PyDict α} (e : PyDict α)
    (h : d.keysNodup) : (d.union e).keysNodup := by
  induction e generalizing d with
  | nil => exact h
  | cons p e' ih =>
    show PyDict.keysNodup (PyDict.union (d.insert p.1 p.2) e')
    exact ih (pd_keysNodup_insert p.1 p.2 h)

theorem pd_union_absorb {α : Type} {A : PyDict α} (e : PyDict α)
    (hA : A.keysNodup) (h : ∀ p ∈ e, A.find p.1 = some p.2) :
    A.union e = A := by
  induction e with
  | nil => rfl
  | cons p e' ih =>
    show PyDict.union (A.insert p.1 p.2) e' = A
    rw [pd_insert_of_find_eq hA (h p (by simp))]
    exact ih (fun q hq => h q (by simp [hq]))

/-! ### C9 -/

/-- Claim C9: crossref merging is idempotent when the target record has no
`crossref` field of its own — overlaying `crossref[k]` a second time on the
already-merged map changes nothing. -/
theorem c9_merge_idempotent (d t : Dict) (cr : PyDict Dict) (k : String)
    (hd : d.keysNodup) (ht : t.keysNodup)
    (h1 : d.find ("crossref") = some k) (h2 : cr.find k = some t)
    (h3 : t.find ("crossref") = none) :
    mergeStep cr (mergeStep cr d) = mergeStep cr d := by
  have hm : mergeStep cr d = d.union t := by
    simp [mergeStep, h1, h2]
  have hfc : PyDict.find (d.union t) ("crossref") = some k := by
    rw [pd_find_union_right_none _ h3, h1]
  have hm2 : mergeStep cr (d.union t) = PyDict.union (d.union t) t := by
    simp [mergeStep, hfc, h2]
  rw [hm, hm2]
  apply pd_union_absorb t (pd_keysNodup_union t hd)
  intro p hp
  obtain ⟨pk, pv⟩ := p
  exact pd_find_union_mem d ht hp

/-- Claim C9, witness: a concrete record with a `crossref` field pointing at
a concrete one-entry crossref table whose record has no `crossref` field. -/
theorem c9_witness :
    PyDict.keysNodup [("crossref", "P1"), ("author", "x")] ∧
    PyDict.keysNodup [("booktitle", "B")] ∧
    PyDict.find [("crossref", "P1"), ("author", "x")] ("crossref") = some ("P1") ∧
    PyDict.find [("P1", [("booktitle", "B")])] ("P1") = some [("booktitle", "B")] ∧
    PyDict.find [("booktitle", "B")] ("crossref") = none ∧
    mergeStep [("P1", [("booktitle", "B")])]
        (mergeStep [("P1", [("booktitle", "B")])] [("crossref", "P1"), ("author", "x")]) =
      mergeStep [("P1", [("booktitle", "B")])] [("crossref", "P1"), ("author", "x")] :=
  ⟨by decide, by decide, by decide, by decide, by decide,
    c9_merge_idempotent [("crossref", "P1"), ("author", "x")] [("booktitle", "B")]
      [("P1", [("booktitle", "B")])] ("P1")
      (by decide) (by decide) (by decide) (by decide) (by decide)⟩

/-! ### Non-emptiness of the cleanup functions (for C2) -/

theorem collapseWS_ne_nil {l : List Char} (h : l ≠ []) : collapseWS l ≠ [] := by
  induction l with
  | nil => exact absurd rfl h
  | cons c rest ih =>
    cases rest with
    | nil =>
      simp only [collapseWS]
      split <;> simp
    | cons d rest' =>
      simp only [collapseWS]
      by_cases h1 : isWS c = true
      · by_cases h2 : isWS d = true
        · rw [if_pos h1, if_pos h2]
          exact ih (by simp)
        · rw [if_pos h1, if_neg h2]
          simp
      · rw [if_neg h1]
        simp

theorem subWsColon_ne_nil {l : List Char} (h : l ≠ []) : subWsColon l ≠ [] := by
  induction l with
  | nil => exact absurd rfl h
  | cons c rest ih =>
    simp only [subWsColon]
    by_cases hc : (isWS c && ((rest.dropWhile (fun d => isWS d)).head? == some ':')) = true
    · rw [if_pos hc]
      have hrest : rest ≠ [] := by
        intro hr
        subst hr
        simp at hc
      exact ih hrest
    · rw [if_neg hc]
      simp

theorem splitSubF_ne_nil (f : Nat) (pat l : List Char) : splitSubF f pat l ≠ [] := by
  match f, l with
  | 0, l => simp [splitSubF]
  | f + 1, [] => simp [splitSubF]
  | f + 1, c :: cs =>
    simp only [splitSubF]
    split
    · simp
    · split <;> simp

theorem splitSub_ne_nil (pat l : List Char) : splitSub pat l ≠ [] :=
  splitSubF_ne_nil _ _ _

theorem reorderName_ne_nil (a : List Char) : reorderName a ≠ [] := by
  simp [reorderName]

theorem joinNames_aux_ne_nil (authors : List (List Char)) (init : List Char)
    (h : authors ≠ []) :
    authors.foldl
      (fun s a => (if s.isEmpty then s else s ++ ", ".data) ++ reorderName a)
      init ≠ [] := by
  induction authors generalizing init with
  | nil => exact absurd rfl h
  | cons a rest ih =>
    cases rest with
    | nil =>
      simp only [List.foldl_cons, List.foldl_nil]
      intro hcontra
      rw [List.append_eq_nil] at hcontra
      exact reorderName_ne_nil a hcontra.2
    | cons b rest' =>
      simp only [List.foldl_cons]
      exact ih _ (by simp)

theorem cleanupAuthorL_ne_nil (l : List Char) : cleanupAuthorL l ≠ [] := by
  unfold cleanupAuthorL
  simp only []
  split
  · intro hcontra
    apply collapseWS_ne_nil (l := _) _ hcontra
    intro hnil
    rw [List.append_eq_nil, List.append_eq_nil] at hnil
    have : (", and ").data ≠ [] := by decide
    exact this hnil.1.2
  · exact joinNames_aux_ne_nil _ _ (splitSub_ne_nil _ _)

/-- `cleanup_author` never returns the empty string (a lone author `X`
becomes `" X"`, and multiple authors always contain `", and "`). -/
theorem cleanup_author_ne_empty (s : String) : cleanup_author s ≠ "" := by
  intro h
  have hd := congrArg String.data h
  simp only [cleanup_author, strOf] at hd
  exact cleanupAuthorL_ne_nil s.data hd

/-- `cleanup_title` maps non-empty strings to non-empty strings: the
whitelist substitution preserves length and the two whitespace substitutions
never delete everything. -/
theorem cleanup_title_ne_empty (s : String) (h : s ≠ "") : cleanup_title s ≠ "" := by
  intro hc
  have hdata : s.data ≠ [] := by
    intro hd
    apply h
    cases s
    simp at hd
    simp [hd]
  have hw : whitelistTitle s.data ≠ [] := by
    simp only [whitelistTitle, ne_eq, List.map_eq_nil_iff]
    exact hdata
  have hcl : collapseWS (whitelistTitle s.data) ≠ [] := collapseWS_ne_nil hw
  have hsub : subWsColon (collapseWS (whitelistTitle s.data)) ≠ [] :=
    subWsColon_ne_nil hcl
  have hd := congrArg String.data hc
  simp only [cleanup_title, strOf] at hd
  exact hsub hd

/-! ### C2 -/

/-- Claim C2: every record produced by the normalizer has a non-empty
`author`, a non-empty `title`, and a `type` equal to `inproceedings` or
`article` — the three filters establish this and the cleanup step preserves
it. -/
theorem c2_invariant (dl : List Dict) (cls : String) (cr : PyDict Dict)
    (d : Dict) (hd : d ∈ normalizeDicts dl cls cr) :
    (∃ a, d.find ("author") = some a ∧ a ≠ "") ∧
    (∃ t, d.find ("title") = some t ∧ t ≠ "") ∧
    (d.find ("type") = some ("inproceedings") ∨
      d.find ("type") = some ("article")) := by
  unfold normalizeDicts at hd
  simp only [] at hd
  obtain ⟨d4, hd4, rfl⟩ := List.mem_map.mp hd
  have h4 := List.mem_filter.mp hd4
  have h3 := List.mem_filter.mp h4.1
  have h2 := List.mem_filter.mp h3.1
  have htype := of_decide_eq_true h2.2
  have hne := of_decide_eq_true h4.2
  have hpres := h3.2
  rw [Bool.and_eq_true, Option.isSome_iff_exists, Option.isSome_iff_exists] at hpres
  obtain ⟨⟨a0, ha0⟩, ⟨t0, ht0⟩⟩ := hpres
  have ha0ne : a0 ≠ "" := by
    intro hcontra
    exact hne.1 (hcontra ▸ ha0)
  have ht0ne : t0 ≠ "" := by
    intro hcontra
    exact hne.2 (hcontra ▸ ht0)
  unfold cleanStep
  simp only []
  have hat : ("author" : String) ≠ "title" := by decide
  have hta : ("title" : String) ≠ "author" := by decide
  have hty1 : ("type" : String) ≠ "title" := by decide
  have hty2 : ("type" : String) ≠ "author" := by decide
  refine ⟨⟨cleanup_author ((PyDict.find d4 ("author")).getD ""), ?_, ?_⟩,
    ⟨cleanup_title
      ((PyDict.find (d4.insert ("author")
        (cleanup_author ((PyDict.find d4 ("author")).getD ""))) ("title")).getD ""), ?_, ?_⟩,
    ?_⟩
  · rw [pd_find_insert_ne _ _ _ _ hat]
    exact pd_find_insert_self _ _ _
  · exact cleanup_author_ne_empty _
  · exact pd_find_insert_self _ _ _
  · rw [pd_find_insert_ne _ _ _ _ hta, ht0]
    exact cleanup_title_ne_empty t0 ht0ne
  · rw [pd_find_insert_ne _ _ _ _ hty1, pd_find_insert_ne _ _ _ _ hty2]
    exact htype

/-- Claim C2, witness: the record produced for the spec's example entry is in
the normalizer's output, so the invariant applies to it. -/
theorem c2_witness :
    ([("type", "inproceedings"), ("id", "Smith20"),
      ("author", "John Smith, and Jane Doe"), ("title", "A Study of X."),
      ("year", "2020"), ("booktitle", "Proc. Y"), ("class", "refs")] ∈
        normalizeDicts (extract_bibitem c1Lines) ("refs") []) ∧
    ((∃ a, PyDict.find [("type", "inproceedings"), ("id", "Smith20"),
      ("author", "John Smith, and Jane Doe"), ("title", "A Study of X."),
      ("year", "2020"), ("booktitle", "Proc. Y"), ("class", "refs")] ("author") =
        some a ∧ a ≠ "") ∧
    (∃ t, PyDict.find [("type", "inproceedings"), ("id", "Smith20"),
      ("author", "John Smith, and Jane Doe"), ("title", "A Study of X."),
      ("year", "2020"), ("booktitle", "Proc. Y"), ("class", "refs")] ("title") =
        some t ∧ t ≠ "") ∧
    (PyDict.find [("type", "inproceedings"), ("id", "Smith20"),
      ("author", "John Smith, and Jane Doe"), ("title", "A Study of X."),
      ("year", "2020"), ("booktitle", "Proc. Y"), ("class", "refs")] ("type") =
        some ("inproceedings") ∨
     PyDict.find [("type", "inproceedings"), ("id", "Smith20"),
      ("author", "John Smith, and Jane Doe"), ("title", "A Study of X."),
      ("year", "2020"), ("booktitle", "Proc. Y"), ("class", "refs")] ("type") =
        some ("article"))) :=
  ⟨by decide, c2_invariant (extract_bibitem c1Lines) ("refs") [] _ (by decide)⟩

/-! ### C8 -/

theorem partitionC_not_mem {c : Char} {l : List Char} (h : c ∉ l) :
    partitionC c l = (l, none) := by
  induction l with
  | nil => rfl
  | cons x xs ih =>
    simp only [List.mem_cons, not_or] at h
    have hx : ¬(x = c) := fun hh => h.1 hh.symm
    simp [partitionC, if_neg hx, ih h.2]

theorem partitionC_append_cons {c : Char} {a : List Char} (b : List Char)
    (h : c ∉ a) : partitionC c (a ++ c :: b) = (a, some b) := by
  induction a with
  | nil => simp [partitionC]
  | cons x xs ih =>
    simp only [List.mem_cons, not_or] at h
    have hx : ¬(x = c) := fun hh => h.1 hh.symm
    simp [partitionC, if_neg hx, ih h.2]

theorem strip_type_line (m : List Char) :
    ∃ m', stripChars (" ,\t\n".data) ("type = ".data ++ m) = "type =".data ++ m' := by
  unfold stripChars stripLeftBy
  have h1 : List.dropWhile (fun c => (" ,\t\n".data).contains c) ("type = ".data ++ m) =
      "type = ".data ++ m := by
    show List.dropWhile _ ('t' :: ("ype = ".data ++ m)) = _
    rw [List.dropWhile_cons]
    exact if_neg (by decide)
  rw [h1, List.reverse_append, List.dropWhile_append]
  by_cases hm :
      (List.dropWhile (fun c => (" ,\t\n".data).contains c) m.reverse).isEmpty = true
  · rw [if_pos hm]
    exact ⟨[], by decide⟩
  · rw [if_neg hm]
    refine ⟨' ' ::
      (List.dropWhile (fun c => (" ,\t\n".data).contains c) m.reverse).reverse, ?_⟩
    rw [List.reverse_append, List.reverse_reverse]
    rfl

theorem strip_id_line (m : List Char) :
    ∃ m', stripChars (" ,\t\n".data) ("id = ".data ++ m) = "id =".data ++ m' := by
  unfold stripChars stripLeftBy
  have h1 : List.dropWhile (fun c => (" ,\t\n".data).contains c) ("id = ".data ++ m) =
      "id = ".data ++ m := by
    show List.dropWhile _ ('i' :: ("d = ".data ++ m)) = _
    rw [List.dropWhile_cons]
    exact if_neg (by decide)
  rw [h1, List.reverse_append, List.dropWhile_append]
  by_cases hm :
      (List.dropWhile (fun c => (" ,\t\n".data).contains c) m.reverse).isEmpty = true
  · rw [if_pos hm]
    exact ⟨[], by decide⟩
  · rw [if_neg hm]
    refine ⟨' ' ::
      (List.dropWhile (fun c => (" ,\t\n".data).contains c) m.reverse).reverse, ?_⟩
    rw [List.reverse_append, List.reverse_reverse]
    rfl

theorem mkKeylist_malformed (frag : List Char)
    (h : ',' ∉ ((partitionC '{' frag).2.getD [])) :
    mkKeylist frag =
      [stripChars (" ,\t\n".data) ("type = ".data ++ lowerL (partitionC '{' frag).1),
       stripChars (" ,\t\n".data)
         ("id = ".data ++ (partitionC ',' ((partitionC '{' frag).2.getD [])).1)] := by
  unfold mkKeylist
  simp only []
  rw [partitionC_not_mem h]
  simp [rpartitionC, partitionC, splitC]

theorem mkDict_two (t1 t2 : List Char) :
    ∃ tv iv,
      mkDict [stripChars (" ,\t\n".data) ("type = ".data ++ t1),
              stripChars (" ,\t\n".data) ("id = ".data ++ t2)] =
        [("type", tv), ("id", iv)] := by
  obtain ⟨m1, hm1⟩ := strip_type_line t1
  obtain ⟨m2, hm2⟩ := strip_id_line t2
  unfold mkDict
  simp only [List.foldl_cons, List.foldl_nil]
  rw [hm1, hm2]
  have hp1 : partitionC '=' ("type =".data ++ m1) = ("type ".data, some m1) := by
    have he : "type =".data ++ m1 = "type ".data ++ '=' :: m1 := rfl
    rw [he, partitionC_append_cons m1 (by decide)]
  have hp2 : partitionC '=' ("id =".data ++ m2) = ("id ".data, some m2) := by
    have he : "id =".data ++ m2 = "id ".data ++ '=' :: m2 := rfl
    rw [he, partitionC_append_cons m2 (by decide)]
  rw [hp1, hp2]
  have hk1 : strOf (lowerL (stripChars (" ,\n\t\x7b\x7d".data) ("type ".data))) = "type" := by
    decide
  have hk2 : strOf (lowerL (stripChars (" ,\n\t\x7b\x7d".data) ("id ".data))) = "id" := by
    decide
  refine ⟨strOf (stripChars (" ,\n\t\x7b\x7d\"".data) m1),
    strOf (stripChars (" ,\n\t\x7b\x7d\"".data) m2), ?_⟩
  simp only [hk1, hk2]
  simp [PyDict.insert]

/-- Claim C8: for every raw fragment with no `{`, or with no `,` after the
first `{` (stated as: no comma in the text following the first brace, which
is vacuously true when there is no brace), the per-fragment work of
`extract_bibitem` is total and degrades to a dict holding exactly the
synthesized `type` and `id` keys and no body-derived keys. -/
theorem c8_malformed_degrades (frag : List Char)
    (h : ',' ∉ ((partitionC '{' frag).2.getD [])) :
    ∃ tv iv, entryDict frag = [("type", tv), ("id", iv)] := by
  unfold entryDict
  rw [mkKeylist_malformed frag h]
  exact mkDict_two _ _

/-- Claim C8, witness: the brace-free fragment `junk no braces` produces a
dict with exactly the `type` and `id` keys. -/
theorem c8_witness :
    (',' ∉ ((partitionC '{' ("junk no braces".data)).2.getD [])) ∧
    ∃ tv iv, entryDict ("junk no braces".data) = [("type", tv), ("id", iv)] :=
  ⟨by decide, c8_malformed_degrades ("junk no braces".data) (by decide)⟩

/-! ### C3: amended theorem -/

theorem rpartitionC_last (c : Char) (x y : List Char) (h : c ∉ y) :
    rpartitionC c (x ++ c :: y) = (x, y) := by
  unfold rpartitionC
  have hrev : (x ++ c :: y).reverse = y.reverse ++ c :: x.reverse := by
    rw [List.reverse_append, List.reverse_cons, List.append_assoc]
    simp
  rw [hrev, partitionC_append_cons x.reverse (by simpa using h)]
  simp

theorem joinNames_pair (a1 a2 : List Char) :
    joinNames [a1, a2] = reorderName a1 ++ ", ".data ++ reorderName a2 := by
  unfold joinNames
  simp only [List.foldl_cons, List.foldl_nil, List.isEmpty_nil, if_true]
  have h1 : (reorderName a1).isEmpty = false := by
    cases hr : reorderName a1 with
    | nil => exact absurd hr (reorderName_ne_nil a1)
    | cons p q => rfl
  rw [List.nil_append, h1]
  simp

/-- Claim C3 (amended): for every author field whose preprocessed text splits
into exactly two author strings (and whose second reordered name contains no
comma of its own), `cleanup_author` joins the two reordered names with
`", and "` — a comma before the `and`, exactly as in the three-or-more
case — not with `" and "`. -/
theorem c3_amended_two_author_joiner (s : String) (a1 a2 : List Char)
    (hsplit : splitSub ("and".data) (stripWS (applyRepl s.data)) = [a1, a2])
    (hc : ',' ∉ reorderName a2) :
    cleanup_author s =
      strOf (collapseWS (reorderName a1 ++ ", and ".data ++ ' ' :: reorderName a2)) := by
  unfold cleanup_author cleanupAuthorL
  simp only []
  rw [hsplit, joinNames_pair]
  have hlen : ([a1, a2] : List (List Char)).length > 1 := by simp
  rw [if_pos hlen]
  have hshape : reorderName a1 ++ ", ".data ++ reorderName a2 =
      reorderName a1 ++ ',' :: ' ' :: reorderName a2 := by
    rw [List.append_assoc]
    rfl
  have hcy : ',' ∉ ' ' :: reorderName a2 := by
    simp only [List.mem_cons, not_or]
    exact ⟨by decide, hc⟩
  rw [hshape, rpartitionC_last ',' (reorderName a1) (' ' :: reorderName a2) hcy]

/-- Claim C3, witness: the two-author field from the spec's example satisfies
the hypotheses, and both sides evaluate to `John Smith, and Jane Doe`. -/
theorem c3_witness :
    splitSub ("and".data)
        (stripWS (applyRepl ("Smith, John and Doe, Jane".data))) =
      ["Smith, John ".data, " Doe, Jane".data] ∧
    (',' ∉ reorderName (" Doe, Jane".data)) ∧
    cleanup_author ("Smith, John and Doe, Jane") =
      strOf (collapseWS (reorderName ("Smith, John ".data) ++ ", and ".data ++
        ' ' :: reorderName (" Doe, Jane".data))) :=
  ⟨by decide, by decide,
    c3_amended_two_author_joiner ("Smith, John and Doe, Jane")
      ("Smith, John ".data) (" Doe, Jane".data) (by decide) (by decide)⟩

/-! ### C6: amended theorem -/

theorem normalizeDicts_reverse (dl : List Dict) (cls : String) (cr : PyDict Dict) :
    normalizeDicts dl.reverse cls cr = (normalizeDicts dl cls cr).reverse := by
  unfold normalizeDicts
  simp only [List.map_reverse, List.filter_reverse]

theorem entryDict_eq (s : List Char) : entryDict s = mkDict (mkKeylist s) := by
  unfold entryDict
  exact rfl

theorem map_mkDict_reverse (fe : List (List Char)) :
    ((fe.map mkKeylist).reverse).map mkDict = (fe.map entryDict).reverse := by
  induction fe with
  | nil => rfl
  | cons a t ih =>
    simp only [List.map_cons, List.reverse_cons, List.map_append, ih, List.map_nil]
    rw [entryDict_eq]

theorem extract_bibitem_eq_reverse (datalist : List String) :
    extract_bibitem datalist = ((fileEntries datalist).map entryDict).reverse := by
  unfold extract_bibitem
  rw [map_mkDict_reverse]

/-- Claim C6 (amended): for every input file, the normalizer's record
sequence is the REVERSE of the sequence obtained by processing the entries in
file order — the Entry Splitter's internal reversal is not compensated, so
surviving records appear in reverse file order. -/
theorem c6_amended_reverse_order (datalist : List String) (cls : String)
    (cr : PyDict Dict) :
    translate_bibtex_to_dictionary datalist cls cr =
      (normalizeFileOrder datalist cls cr).reverse := by
  unfold translate_bibtex_to_dictionary normalizeFileOrder
  rw [extract_bibitem_eq_reverse, normalizeDicts_reverse]

/-! ### C5: amended theorem -/

/-- `d` is a `proceedings` dict with id `K` (a crossref-table writer for key
`K`). -/
def isProcWithId (d : Dict) (K : String) : Prop :=
  d.find ("type") = some ("proceedings") ∧ d.find ("id") = some K

instance (d : Dict) (K : String) : Decidable (isProcWithId d K) := by
  unfold isProcWithId; infer_instance

/-- The key/value pair parsed from one keylist line. -/
def fieldOf (t : List Char) : String × String :=
  (strOf (lowerL (stripChars (" ,\n\t\x7b\x7d".data) (partitionC '=' t).1)),
   strOf (stripChars (" ,\n\t\x7b\x7d\"".data) ((partitionC '=' t).2.getD [])))

theorem mkDict_eq_foldl_fieldOf (keylist : List (List Char)) :
    mkDict keylist =
      keylist.foldl (fun m t => PyDict.insert m (fieldOf t).1 (fieldOf t).2) [] := by
  unfold mkDict fieldOf
  exact rfl

theorem fieldOf_type_line (t1 : List Char) :
    ∃ tv, fieldOf (stripChars (" ,\t\n".data) ("type = ".data ++ t1)) = ("type", tv) := by
  obtain ⟨m1, hm1⟩ := strip_type_line t1
  rw [hm1]
  unfold fieldOf
  have hp1 : partitionC '=' ("type =".data ++ m1) = ("type ".data, some m1) := by
    have he : "type =".data ++ m1 = "type ".data ++ '=' :: m1 := rfl
    rw [he, partitionC_append_cons m1 (by decide)]
  rw [hp1]
  have hk1 : strOf (lowerL (stripChars (" ,\n\t\x7b\x7d".data) ("type ".data))) = "type" := by
    decide
  exact ⟨_, by rw [hk1]⟩

theorem fieldOf_id_line (t2 : List Char) :
    ∃ iv, fieldOf (stripChars (" ,\t\n".data) ("id = ".data ++ t2)) = ("id", iv) := by
  obtain ⟨m2, hm2⟩ := strip_id_line t2
  rw [hm2]
  unfold fieldOf
  have hp2 : partitionC '=' ("id =".data ++ m2) = ("id ".data, some m2) := by
    have he : "id =".data ++ m2 = "id ".data ++ '=' :: m2 := rfl
    rw [he, partitionC_append_cons m2 (by decide)]
  rw [hp2]
  have hk2 : strOf (lowerL (stripChars (" ,\n\t\x7b\x7d".data) ("id ".data))) = "id" := by
    decide
  exact ⟨_, by rw [hk2]⟩

theorem pd_isSome_insert {α : Type} (d : PyDict α) (k k' : String) (v : α)
    (h : (PyDict.find d k).isSome) :
    (PyDict.find (d.insert k' v) k).isSome := by
  by_cases hk : k = k'
  · subst hk
    rw [pd_find_insert_self]
    rfl
  · rw [pd_find_insert_ne _ _ _ _ hk]
    exact h

theorem pd_isSome_foldl_fieldOf (lines : List (List Char)) (init : Dict)
    (k : String) (h : (PyDict.find init k).isSome) :
    (PyDict.find
      (lines.foldl (fun m t => PyDict.insert m (fieldOf t).1 (fieldOf t).2) init)
      k).isSome := by
  induction lines generalizing init with
  | nil => exact h
  | cons t rest ih =>
    simp only [List.foldl_cons]
    exact ih _ (pd_isSome_insert _ _ _ _ h)

/-- Every dict built by the field parser contains the synthesized `type` and
`id` keys (the first two keylist lines always parse to those keys, and later
lines can only overwrite, never remove them). -/
theorem entryDict_has_type_id (frag : List Char) :
    (PyDict.find (entryDict frag) ("type")).isSome ∧
    (PyDict.find (entryDict frag) ("id")).isSome := by
  rw [entryDict_eq, mkDict_eq_foldl_fieldOf]
  unfold mkKeylist
  simp only [List.map_cons, List.foldl_cons]
  obtain ⟨tv, htv⟩ := fieldOf_type_line (lowerL (partitionC '{' frag).1)
  obtain ⟨iv, hiv⟩ := fieldOf_id_line (partitionC ',' ((partitionC '{' frag).2.getD [])).1
  rw [htv, hiv]
  constructor
  · apply pd_isSome_foldl_fieldOf
    have h1 : PyDict.insert ([] : Dict) ("type") tv = [("type", tv)] := by
      simp [PyDict.insert]
    rw [h1]
    rw [pd_find_insert_ne _ _ _ _ (by decide : ("type" : String) ≠ "id")]
    simp [PyDict.find]
  · apply pd_isSome_foldl_fieldOf
    rw [pd_find_insert_self]
    rfl

theorem strdictOf_some (dl : List Dict) (acc : Dict)
    (h : ∀ d ∈ dl, (PyDict.find d ("id")).isSome) :
    ∃ sd, strdictOf dl acc = some sd := by
  induction dl generalizing acc with
  | nil => exact ⟨acc, rfl⟩
  | cons d rest ih =>
    have hrest : ∀ d' ∈ rest, (PyDict.find d' ("id")).isSome :=
      fun d' hd' => h d' (by simp [hd'])
    cases hty : PyDict.find d ("type") with
    | none => simpa [strdictOf, hty] using ih acc hrest
    | some ty =>
      by_cases hs : ty = "string"
      · subst hs
        have hid := h d (by simp)
        rw [Option.isSome_iff_exists] at hid
        obtain ⟨s, hsid⟩ := hid
        simpa [strdictOf, hty, hsid] using ih _ hrest
      · simpa [strdictOf, hty, hs] using ih acc hrest

theorem buildCrossref_append (sd : Dict) (l1 l2 : List Dict) (acc : PyDict Dict) :
    buildCrossref sd (l1 ++ l2) acc =
      match buildCrossref sd l1 acc with
      | none => none
      | some acc1 => buildCrossref sd l2 acc1 := by
  induction l1 generalizing acc with
  | nil => simp [buildCrossref]
  | cons d rest ih =>
    cases hty : PyDict.find d ("type") with
    | none => simp [buildCrossref, hty, ih]
    | some ty =>
      by_cases hp : ty = "proceedings"
      · subst hp
        cases hid : PyDict.find d ("id") with
        | none => simp [buildCrossref, hty, hid]
        | some kid =>
          cases htl : PyDict.find d ("title") with
          | none => simp [buildCrossref, hty, hid, htl]
          | some t => simp [buildCrossref, hty, hid, htl, ih]
      · simp [buildCrossref, hty, hp, ih]

theorem buildCrossref_ok (sd : Dict) (l : List Dict) (acc : PyDict Dict)
    (hok : ∀ d ∈ l, PyDict.find d ("type") = some ("proceedings") →
      (PyDict.find d ("id")).isSome ∧ (PyDict.find d ("title")).isSome) :
    ∃ acc', buildCrossref sd l acc = some acc' := by
  induction l generalizing acc with
  | nil => exact ⟨acc, rfl⟩
  | cons d rest ih =>
    have hrest : ∀ d' ∈ rest, PyDict.find d' ("type") = some ("proceedings") →
        (PyDict.find d' ("id")).isSome ∧ (PyDict.find d' ("title")).isSome :=
      fun d' hd' => hok d' (List.mem_cons_of_mem _ hd')
    cases hty : PyDict.find d ("type") with
    | none => simpa [buildCrossref, hty] using ih acc hrest
    | some ty =>
      by_cases hp : ty = "proceedings"
      · subst hp
        obtain ⟨hid, htl⟩ := hok d (by simp) hty
        rw [Option.isSome_iff_exists] at hid htl
        obtain ⟨kid, hkid⟩ := hid
        obtain ⟨t, ht⟩ := htl
        simpa [buildCrossref, hty, hkid, ht] using ih _ hrest
      · simpa [buildCrossref, hty, hp] using ih acc hrest

theorem buildCrossref_no_writer (sd : Dict) (l : List Dict) (acc : PyDict Dict)
    (K : String)
    (hok : ∀ d ∈ l, PyDict.find d ("type") = some ("proceedings") →
      (PyDict.find d ("id")).isSome ∧ (PyDict.find d ("title")).isSome)
    (hnw : ∀ d ∈ l, ¬ isProcWithId d K) :
    ∃ acc', buildCrossref sd l acc = some acc' ∧
      PyDict.find acc' K = PyDict.find acc K := by
  induction l generalizing acc with
  | nil => exact ⟨acc, rfl, rfl⟩
  | cons d rest ih =>
    have hrest : ∀ d' ∈ rest, PyDict.find d' ("type") = some ("proceedings") →
        (PyDict.find d' ("id")).isSome ∧ (PyDict.find d' ("title")).isSome :=
      fun d' hd' => hok d' (List.mem_cons_of_mem _ hd')
    have hnwrest : ∀ d' ∈ rest, ¬ isProcWithId d' K :=
      fun d' hd' => hnw d' (List.mem_cons_of_mem _ hd')
    cases hty : PyDict.find d ("type") with
    | none => simpa [buildCrossref, hty] using ih acc hrest hnwrest
    | some ty =>
      by_cases hp : ty = "proceedings"
      · subst hp
        obtain ⟨hid, htl⟩ := hok d (by simp) hty
        rw [Option.isSome_iff_exists] at hid htl
        obtain ⟨kid, hkid⟩ := hid
        obtain ⟨t, ht⟩ := htl
        have hkK : kid ≠ K := by
          intro he
          exact hnw d (by simp) ⟨hty, he ▸ hkid⟩
        obtain ⟨acc', hacc', hfind⟩ := ih (acc.insert kid (procEntry sd d)) hrest hnwrest
        refine ⟨acc', by simpa [buildCrossref, hty, hkid, ht] using hacc', ?_⟩
        rw [hfind, pd_find_insert_ne _ _ _ _ (fun he => hkK he.symm)]
      · simpa [buildCrossref, hty, hp] using ih acc hrest hnwrest

/-- Claim C5 (amended): when a file contains two `@proceedings` entries `a`
(earlier) and `b` (later) with the same id `K`, and no `proceedings` entry
with id `K` precedes `a`, the crossref table maps `K` to the record built
from `a` — the EARLIER occurrence.  `extract_bibitem` reverses the entry
list, so the table loop processes the file-earlier duplicate last and its
write wins. -/
theorem c5_amended_earlier_wins (datalist : List String)
    (pre mid post : List (List Char)) (a b : List Char) (K : String)
    (hsplit : fileEntries datalist = pre ++ a :: (mid ++ b :: post))
    (ha : isProcWithId (entryDict a) K)
    (hb : isProcWithId (entryDict b) K)
    (hpre : ∀ e ∈ pre, ¬ isProcWithId (entryDict e) K)
    (htitles : ∀ e ∈ fileEntries datalist,
      PyDict.find (entryDict e) ("type") = some ("proceedings") →
      (PyDict.find (entryDict e) ("title")).isSome) :
    ∃ sd cr, strdictOf (extract_bibitem datalist) [] = some sd ∧
      extract_crossref datalist = some cr ∧
      PyDict.find cr K = some (procEntry sd (entryDict a)) := by
  have hdl : extract_bibitem datalist =
      ((post.map entryDict).reverse ++ entryDict b :: (mid.map entryDict).reverse)
        ++ entryDict a :: (pre.map entryDict).reverse := by
    rw [extract_bibitem_eq_reverse, hsplit]
    simp [List.map_append, List.map_cons, List.reverse_append, List.reverse_cons,
      List.append_assoc]
  have hids : ∀ d ∈ extract_bibitem datalist, (PyDict.find d ("id")).isSome := by
    intro d hd
    rw [extract_bibitem_eq_reverse, List.mem_reverse] at hd
    obtain ⟨e, _, rfl⟩ := List.mem_map.mp hd
    exact (entryDict_has_type_id e).2
  obtain ⟨sd, hsd⟩ := strdictOf_some _ [] hids
  have hok : ∀ d ∈ extract_bibitem datalist,
      PyDict.find d ("type") = some ("proceedings") →
      (PyDict.find d ("id")).isSome ∧ (PyDict.find d ("title")).isSome := by
    intro d hd hty
    refine ⟨hids d hd, ?_⟩
    rw [extract_bibitem_eq_reverse, List.mem_reverse] at hd
    obtain ⟨e, he, rfl⟩ := List.mem_map.mp hd
    exact htitles e he hty
  have hcr : extract_crossref datalist = buildCrossref sd (extract_bibitem datalist) [] := by
    have hz : extract_crossref datalist =
        match strdictOf (extract_bibitem datalist) [] with
        | none => none
        | some sd0 => buildCrossref sd0 (extract_bibitem datalist) [] := rfl
    rw [hz, hsd]
  have hokl1 : ∀ d ∈ (post.map entryDict).reverse ++
      entryDict b :: (mid.map entryDict).reverse,
      PyDict.find d ("type") = some ("proceedings") →
      (PyDict.find d ("id")).isSome ∧ (PyDict.find d ("title")).isSome := by
    intro d hd
    refine hok d ?_
    rw [hdl]
    exact List.mem_append_left _ hd
  obtain ⟨acc1, hacc1⟩ := buildCrossref_ok sd _ [] hokl1
  obtain ⟨hty_a, hid_a⟩ := ha
  have htl_a : (PyDict.find (entryDict a) ("title")).isSome := by
    refine htitles a ?_ hty_a
    rw [hsplit]
    simp
  rw [Option.isSome_iff_exists] at htl_a
  obtain ⟨t, ht⟩ := htl_a
  have hnw2 : ∀ d ∈ (pre.map entryDict).reverse, ¬ isProcWithId d K := by
    intro d hd
    rw [List.mem_reverse] at hd
    obtain ⟨e, he, rfl⟩ := List.mem_map.mp hd
    exact hpre e he
  have hok2 : ∀ d ∈ (pre.map entryDict).reverse,
      PyDict.find d ("type") = some ("proceedings") →
      (PyDict.find d ("id")).isSome ∧ (PyDict.find d ("title")).isSome := by
    intro d hd
    refine hok d ?_
    rw [hdl]
    exact List.mem_append_right _ (List.mem_cons_of_mem _ hd)
  obtain ⟨acc', hacc', hfind⟩ :=
    buildCrossref_no_writer sd ((pre.map entryDict).reverse)
      (acc1.insert K (procEntry sd (entryDict a))) K hok2 hnw2
  refine ⟨sd, acc', hsd, ?_, ?_⟩
  · rw [hcr, hdl, buildCrossref_append, hacc1]
    simp only []
    have hstep : buildCrossref sd
        (entryDict a :: (pre.map entryDict).reverse) acc1 =
        buildCrossref sd ((pre.map entryDict).reverse)
          (acc1.insert K (procEntry sd (entryDict a))) := by
      simp [buildCrossref, hty_a, hid_a, ht]
    rw [hstep, hacc']
  · rw [hfind, pd_find_insert_self]

/-- Claim C5, witness: the duplicate-`P1` file satisfies the hypotheses with
the `First` entry as the earlier occurrence, and the crossref table indeed
holds the record built from it. -/
theorem c5_witness :
    (fileEntries dupLines =
      [] ++ ("proceedings\x7bP1,\ntitle = \x7bFirst\x7d\x7d\n".data) ::
        ([] ++ ("proceedings\x7bP1,\ntitle = \x7bSecond\x7d\x7d\n".data) :: [])) ∧
    isProcWithId (entryDict ("proceedings\x7bP1,\ntitle = \x7bFirst\x7d\x7d\n".data)) ("P1") ∧
    isProcWithId (entryDict ("proceedings\x7bP1,\ntitle = \x7bSecond\x7d\x7d\n".data)) ("P1") ∧
    (∃ sd cr, strdictOf (extract_bibitem dupLines) [] = some sd ∧
      extract_crossref dupLines = some cr ∧
      PyDict.find cr ("P1") =
        some (procEntry sd (entryDict ("proceedings\x7bP1,\ntitle = \x7bFirst\x7d\x7d\n".data)))) :=
  ⟨by decide, by decide, by decide,
    c5_amended_earlier_wins dupLines [] [] []
      ("proceedings\x7bP1,\ntitle = \x7bFirst\x7d\x7d\n".data)
      ("proceedings\x7bP1,\ntitle = \x7bSecond\x7d\x7d\n".data) ("P1")
      (by decide) (by decide) (by decide) (by simp) (by decide)⟩
